import Mathlib

/-!
Shallow embedding of `src/server/server.js` of the mern-chat-blog repository:
the socket connection registry and event broadcaster, and the server-side
render pipeline (route match dispatch, error page, full-page assembly with an
embedded serialized state snapshot).

JavaScript values that flow through `JSON.stringify` are modelled by the
inductive type `Json` below (numbers as integers: floating-point formatting
is outside the scope of this embedding).  Socket handles are opaque and
modelled as naturals.  The mutable `clients` array is modelled by explicit
list passing; `process.env` and the `Helmet` head-fragment global are passed
as explicit arguments.
-/

set_option maxRecDepth 2048

/-- JavaScript values as far as the server serializes them: `null`, booleans,
(integer) numbers, strings, arrays and plain objects. -/
inductive Json where
  | null : Json
  | bool (b : Bool) : Json
  | num (n : Int) : Json
  | str (s : String) : Json
  | arr (elems : List Json) : Json
  | obj (fields : List (String × Json)) : Json

/-! ## Connection registry (`const clients = []` and the connection handlers)

`io.on('connection', socket => { clients.push(socket); ... })` adds the
socket at the end of the array; the `disconnect` handler runs
`clients.splice(clients.indexOf(socket), 1)`. -/

/-- A socket handle; opaque identity is all the registry code uses. -/
abbrev Handle := Nat

/-- Registration: `clients.push(socket)` (line 169 of server.js). -/
def register (clients : List Handle) (socket : Handle) : List Handle :=
  clients ++ [socket]

/-- JS `clients.indexOf(socket)`: index of the first occurrence, `-1` if absent. -/
def jsIndexOf (clients : List Handle) (socket : Handle) : Int :=
  match clients.findIdx? (fun c => c = socket) with
  | some i => (i : Int)
  | none => -1

/-- JS `arr.splice(start, 1)` in ECMAScript semantics, returning the array after
the splice: a negative `start` counts from the end (clamped at 0), a `start`
past the end deletes nothing. -/
def spliceDeleteOne (l : List Handle) (start : Int) : List Handle :=
  let len : Int := l.length
  let actualStart : Nat := (if start < 0 then max (len + start) 0 else min start len).toNat
  l.take actualStart ++ l.drop (actualStart + 1)

/-- The `disconnect` handler (lines 172-176 of server.js):
`clients.splice(clients.indexOf(socket), 1)`. -/
def unregister (clients : List Handle) (socket : Handle) : List Handle :=
  spliceDeleteOne clients (jsIndexOf clients socket)

/-! ## Event broadcaster (the `action` and refresh handlers)

`io.sockets.emit(event, payload)` delivers `(event, payload)` to every
connected socket — the registry list — including the socket the event came
from.  A delivery is a pair of the receiving handle and the emitted message. -/

/-- The object a client sends on the `action` channel: `action.type` plus the
`post` / `comment` fields the handler forwards. -/
structure InAction where
  type : String
  post : Json
  comment : Json

/-- An emitted socket message: event name and (for `action` events) payload. -/
structure OutMsg where
  event : String
  payload : Json

/-- Broadcast `io.sockets.emit(event, payload)`: one delivery per connected socket, in
registry order. -/
def emitAll (clients : List Handle) (m : OutMsg) : List (Handle × OutMsg) :=
  clients.map (fun c => (c, m))

/-- The `socket.on('action', ...)` handler (lines 178-190 of server.js): three
independent `if` statements, each an `io.sockets.emit('action', …)` with the
translated type tag.  The originating socket is not consulted: fan-out is to
all connected clients. -/
def onAction (clients : List Handle) (action : InAction) : List (Handle × OutMsg) :=
  (if action.type = "server/addPost" then
    emitAll clients ⟨"action", Json.obj [("type", Json.str "ADD_POST"), ("post", action.post)]⟩
  else []) ++
  (if action.type = "server/updatePost" then
    emitAll clients ⟨"action", Json.obj [("type", Json.str "UPDATE_POST"), ("post", action.post)]⟩
  else []) ++
  (if action.type = "server/addComment" then
    emitAll clients ⟨"action", Json.obj [("type", Json.str "ADD_COMMENT"), ("comment", action.comment)]⟩
  else [])

/-- The `socket.on('refresh bloglist', ...)` handler (lines 192-194):
re-emits the bare event to all connected sockets. -/
def onRefreshBloglist (clients : List Handle) : List (Handle × OutMsg) :=
  emitAll clients ⟨"refresh bloglist", Json.null⟩

/-- The `socket.on('refresh commentlist', ...)` handler (lines 196-198). -/
def onRefreshCommentlist (clients : List Handle) : List (Handle × OutMsg) :=
  emitAll clients ⟨"refresh commentlist", Json.null⟩

/-- The event translation performed by the `action` handler, for the three
recognized kinds. -/
def translateAction (action : InAction) : OutMsg :=
  if action.type = "server/addPost" then
    ⟨"action", Json.obj [("type", Json.str "ADD_POST"), ("post", action.post)]⟩
  else if action.type = "server/updatePost" then
    ⟨"action", Json.obj [("type", Json.str "UPDATE_POST"), ("post", action.post)]⟩
  else
    ⟨"action", Json.obj [("type", Json.str "ADD_COMMENT"), ("comment", action.comment)]⟩

/-- The three mutation kinds the `action` handler recognizes. -/
def knownKind (action : InAction) : Prop :=
  action.type = "server/addPost" ∨ action.type = "server/updatePost" ∨
    action.type = "server/addComment"

instance (action : InAction) : Decidable (knownKind action) := by
  unfold knownKind; infer_instance

/-! ## Registry lemmas -/

/-- A handle absent from the registry has JS index `-1`. -/
theorem jsIndexOf_of_not_mem (clients : List Handle) (s : Handle)
    (hn : s ∉ clients) : jsIndexOf clients s = -1 := by
  unfold jsIndexOf
  have : clients.findIdx? (fun c => c = s) = none := by
    rw [List.findIdx?_eq_none_iff]
    intro x hx
    simp only [decide_eq_false_iff_not]
    exact fun he => hn (he ▸ hx)
  rw [this]

/-- Registering a fresh handle puts it at JS index `clients.length`. -/
theorem jsIndexOf_register_fresh (clients : List Handle) (s : Handle)
    (hn : s ∉ clients) : jsIndexOf (register clients s) s = clients.length := by
  unfold jsIndexOf register
  have h1 : clients.findIdx? (fun c => c = s) = none := by
    rw [List.findIdx?_eq_none_iff]
    intro x hx
    simp only [decide_eq_false_iff_not]
    exact fun he => hn (he ▸ hx)
  rw [List.findIdx?_append, h1]
  simp [List.findIdx?]

/-- JS `splice(-1, 1)` drops the last element (and is a no-op on `[]`). -/
theorem spliceDeleteOne_neg_one (l : List Handle) :
    spliceDeleteOne l (-1) = l.dropLast := by
  unfold spliceDeleteOne
  simp only []
  cases l with
  | nil => rfl
  | cons x xs =>
    have hlen : ((x :: xs).length : Int) + -1 = (xs.length : Int) := by
      simp [List.length_cons]
    rw [if_pos (by omega), hlen]
    have hmax : max (xs.length : Int) 0 = (xs.length : Int) := by omega
    rw [hmax]
    rw [Int.toNat_natCast]
    rw [List.dropLast_eq_take]
    have hdrop : (x :: xs).drop (xs.length + 1) = [] := by
      apply List.drop_eq_nil_of_le
      simp [List.length_cons]
    rw [hdrop, List.append_nil]
    simp [List.length_cons]

/-- JS `splice(len, 1)` where `len` is the index of the last element of
`l ++ [s]` removes exactly that element. -/
theorem spliceDeleteOne_at_length (l : List Handle) (s : Handle) :
    spliceDeleteOne (l ++ [s]) (l.length : Int) = l := by
  unfold spliceDeleteOne
  simp only []
  rw [if_neg (by omega)]
  have hlen : ((l ++ [s]).length : Int) = (l.length : Int) + 1 := by simp
  have hmin : min (l.length : Int) ((l ++ [s]).length : Int) = (l.length : Int) := by
    rw [hlen]; omega
  rw [hmin, Int.toNat_natCast]
  rw [List.take_append_of_le_length (le_refl l.length), List.take_length]
  rw [List.drop_eq_nil_of_le (by simp), List.append_nil]

/-- For a recognized mutation kind, the `action` handler performs exactly one
broadcast: one delivery of the translated event per registered connection, in
registry order. -/
theorem onAction_known_kind (clients : List Handle) (action : InAction)
    (hk : knownKind action) :
    onAction clients action = clients.map (fun c => (c, translateAction action)) := by
  rcases hk with h | h | h
  · have h2 : action.type ≠ "server/updatePost" := by rw [h]; decide
    have h3 : action.type ≠ "server/addComment" := by rw [h]; decide
    simp [onAction, translateAction, emitAll, h, h2, h3]
  · have h1 : action.type ≠ "server/addPost" := by rw [h]; decide
    have h3 : action.type ≠ "server/addComment" := by rw [h]; decide
    simp [onAction, translateAction, emitAll, h, h1, h3]
  · have h1 : action.type ≠ "server/addPost" := by rw [h]; decide
    have h2 : action.type ≠ "server/updatePost" := by rw [h]; decide
    simp [onAction, translateAction, emitAll, h, h1, h2]

/-! ## Claim C1 (corrected) -/

/-- C1 counterexample: with connections 0 and 1 registered, a
`server/addPost` event arriving from connection 0 is delivered back to
connection 0 itself (`io.sockets.emit` does not exclude the origin), so the
claim that the translated event is never delivered back to its sender fails. -/
theorem c1_counterexample_echo_to_origin :
    (0, translateAction ⟨"server/addPost", Json.num 7, Json.null⟩) ∈
      onAction [0, 1] ⟨"server/addPost", Json.num 7, Json.null⟩ := by
  have h : onAction [0, 1] ⟨"server/addPost", Json.num 7, Json.null⟩ =
      [(0, translateAction ⟨"server/addPost", Json.num 7, Json.null⟩),
        (1, translateAction ⟨"server/addPost", Json.num 7, Json.null⟩)] := rfl
  rw [h]
  exact List.mem_cons_self _ _

/-- C1 (amended): a mutation event of a known kind is delivered exactly once
to every registered connection — including the originating connection when it
is registered, since the handler broadcasts via `io.sockets.emit` with no
origin exclusion. -/
theorem c1_known_kind_broadcast_to_all (clients : List Handle) (origin : Handle)
    (action : InAction) (hk : knownKind action) (ho : origin ∈ clients) :
    onAction clients action = clients.map (fun c => (c, translateAction action)) ∧
      (origin, translateAction action) ∈ onAction clients action := by
  refine ⟨onAction_known_kind clients action hk, ?_⟩
  rw [onAction_known_kind clients action hk]
  exact List.mem_map.mpr ⟨origin, ho, rfl⟩

theorem c1_known_kind_broadcast_to_all_witness :
    knownKind ⟨"server/addPost", Json.num 7, Json.null⟩ ∧ (1 : Handle) ∈ [0, 1] ∧
      (1, translateAction ⟨"server/addPost", Json.num 7, Json.null⟩) ∈
        onAction [0, 1] ⟨"server/addPost", Json.num 7, Json.null⟩ :=
  ⟨by decide, by decide,
    (c1_known_kind_broadcast_to_all [0, 1] 1 ⟨"server/addPost", Json.num 7, Json.null⟩
      (by decide) (by decide)).2⟩

/-! ## Claim C5 (confirmed) -/

/-- C5: an incoming `action` event whose `type` is none of the three
recognized mutation kinds is forwarded to no connection; the handler is total
(no conditional matches, no emit, no failure). -/
theorem c5_unknown_kind_no_broadcast (clients : List Handle) (action : InAction)
    (h : ¬ knownKind action) : onAction clients action = [] := by
  unfold knownKind at h
  push_neg at h
  obtain ⟨h1, h2, h3⟩ := h
  simp [onAction, h1, h2, h3]

theorem c5_unknown_kind_no_broadcast_witness :
    ¬ knownKind ⟨"server/deletePost", Json.null, Json.null⟩ ∧
      onAction [0, 1] ⟨"server/deletePost", Json.null, Json.null⟩ = [] :=
  ⟨by decide, c5_unknown_kind_no_broadcast [0, 1] _ (by decide)⟩

/-! ## Claim C6 (corrected) -/

/-- C6 counterexample: unregistering handle 3, which is not in the registry
`[1, 2]`, is not a no-op: `indexOf` yields `-1` and `splice(-1, 1)` removes
the last registered handle, leaving `[1]`. -/
theorem c6_counterexample_double_disconnect :
    unregister [1, 2] 3 = [1] ∧ unregister [1, 2] 3 ≠ [1, 2] := by
  exact ⟨rfl, by decide⟩

/-- C6 (amended): unregistering a handle that is absent from the registry
drops the last registered handle (`splice(-1, 1)`); it is a no-op exactly
when the registry is empty. -/
theorem c6_unregister_absent_drops_last (clients : List Handle) (s : Handle)
    (hn : s ∉ clients) : unregister clients s = clients.dropLast := by
  unfold unregister
  rw [jsIndexOf_of_not_mem clients s hn, spliceDeleteOne_neg_one]

theorem c6_unregister_absent_drops_last_witness :
    (3 : Handle) ∉ [1, 2] ∧ unregister [1, 2] 3 = [1, 2].dropLast :=
  ⟨by decide, c6_unregister_absent_drops_last [1, 2] 3 (by decide)⟩

/-! ## Claim C9 (corrected) -/

/-- C9 counterexample: for the registry state `[5]` that already holds
handle 5, registering 5 and then unregistering it leaves `[5]` — the handle
is still present, so the claim quantified over every registry state fails. -/
theorem c9_counterexample_roundtrip_keeps_handle :
    5 ∈ unregister (register [5] 5) 5 := by decide

/-- C9 (amended): for every registry state not already containing `h` (the
no-duplicates invariant), registering `h` and then unregistering `h` restores
the registry exactly, so `h` is absent afterwards; and the broadcaster has no
`allExcept`: for a known-kind event its fan-out target sequence is the whole
registry, which includes `h` whenever `h` is registered. -/
theorem c9_register_unregister_roundtrip (clients : List Handle) (s : Handle)
    (hn : s ∉ clients) :
    unregister (register clients s) s = clients ∧
      s ∉ unregister (register clients s) s ∧
      ∀ action : InAction, knownKind action →
        (onAction (register clients s) action).map Prod.fst = register clients s := by
  have heq : unregister (register clients s) s = clients := by
    unfold unregister
    rw [jsIndexOf_register_fresh clients s hn]
    exact spliceDeleteOne_at_length clients s
  refine ⟨heq, by rw [heq]; exact hn, ?_⟩
  intro action hk
  rw [onAction_known_kind _ _ hk, List.map_map]
  exact List.map_id'' (fun x => rfl) _

theorem c9_register_unregister_roundtrip_witness :
    (3 : Handle) ∉ [1, 2] ∧ unregister (register [1, 2] 3) 3 = [1, 2] :=
  ⟨by decide, (c9_register_unregister_roundtrip [1, 2] 3 (by decide)).1⟩

/-! ## Claim C10 (confirmed) -/

/-- C10: a `refresh bloglist` or `refresh commentlist` event is re-emitted
verbatim (same event name) to every connected client, including the
originating connection. -/
theorem c10_refresh_rebroadcast_to_all (clients : List Handle) (origin : Handle)
    (ho : origin ∈ clients) :
    onRefreshBloglist clients =
        clients.map (fun c => (c, (⟨"refresh bloglist", Json.null⟩ : OutMsg))) ∧
      (origin, (⟨"refresh bloglist", Json.null⟩ : OutMsg)) ∈ onRefreshBloglist clients ∧
      onRefreshCommentlist clients =
        clients.map (fun c => (c, (⟨"refresh commentlist", Json.null⟩ : OutMsg))) ∧
      (origin, (⟨"refresh commentlist", Json.null⟩ : OutMsg)) ∈ onRefreshCommentlist clients := by
  refine ⟨rfl, ?_, rfl, ?_⟩ <;> exact List.mem_map.mpr ⟨origin, ho, rfl⟩

theorem c10_refresh_rebroadcast_to_all_witness :
    (0 : Handle) ∈ [0, 1] ∧
      ((0 : Handle), (⟨"refresh bloglist", Json.null⟩ : OutMsg)) ∈ onRefreshBloglist [0, 1] :=
  ⟨by decide, (c10_refresh_rebroadcast_to_all [0, 1] 0 (by decide)).2.1⟩

/-! ## JSON serialization (`JSON.stringify`)

The server embeds `JSON.stringify(initialState)` (and
`JSON.stringify(chunkManifest)`) into the page template.  The functions below
model ECMA-262 `JSON.stringify` on the `Json` fragment above: strings are
quoted with `\"`, `\\`, the named control escapes and `\u00xx` for other
control characters; every other character — including `/` and `<` — is
emitted verbatim.  Numbers print in decimal. -/

/-- Decimal digits of a natural number, most significant first. -/
def natDigits (n : Nat) : List Char :=
  if h : n < 10 then [Char.ofNat (48 + n)]
  else natDigits (n / 10) ++ [Char.ofNat (48 + n % 10)]
termination_by n
decreasing_by exact Nat.div_lt_self (by omega) (by omega)

/-- Decimal character sequence of an integer, as JS number-to-string
produces it for integral values. -/
def intChars (n : Int) : List Char :=
  if n < 0 then '-' :: natDigits n.natAbs else natDigits n.toNat

/-- Lowercase hexadecimal digit character for a value below 16. -/
def hexDigitChar (n : Nat) : Char :=
  if n < 10 then Char.ofNat (48 + n) else Char.ofNat (87 + n)

/-- Four-digit lowercase hex rendering used by the `\u00xx` escapes. -/
def toHex4 (n : Nat) : List Char :=
  [hexDigitChar (n / 4096 % 16), hexDigitChar (n / 256 % 16),
    hexDigitChar (n / 16 % 16), hexDigitChar (n % 16)]

/-- Per-character escaping of `JSON.stringify`'s string quoting. -/
def escapeChar (c : Char) : List Char :=
  if c = '"' then ['\\', '"']
  else if c = '\\' then ['\\', '\\']
  else if c = Char.ofNat 8 then ['\\', 'b']
  else if c = Char.ofNat 9 then ['\\', 't']
  else if c = Char.ofNat 10 then ['\\', 'n']
  else if c = Char.ofNat 12 then ['\\', 'f']
  else if c = Char.ofNat 13 then ['\\', 'r']
  else if c.toNat < 32 then '\\' :: 'u' :: toHex4 c.toNat
  else [c]

/-- String-body escaping of `JSON.stringify` (without the enclosing quotes). -/
def escapeList (s : List Char) : List Char :=
  match s with
  | [] => []
  | c :: rest => escapeChar c ++ escapeList rest

mutual

/-- Characters of `JSON.stringify` on a `Json` value. -/
def stringifyV : Json → List Char
  | .null => ['n', 'u', 'l', 'l']
  | .bool b => if b then ['t', 'r', 'u', 'e'] else ['f', 'a', 'l', 's', 'e']
  | .num n => intChars n
  | .str s => '"' :: (escapeList s.data ++ ['"'])
  | .arr elems => '[' :: (stringifyElems elems ++ [']'])
  | .obj fields => '\x7b' :: (stringifyFields fields ++ ['\x7d'])

/-- Comma-separated serialization of array elements. -/
def stringifyElems : List Json → List Char
  | [] => []
  | [j] => stringifyV j
  | j :: j2 :: rest => stringifyV j ++ ',' :: stringifyElems (j2 :: rest)

/-- Comma-separated serialization of object members (`"key":value`). -/
def stringifyFields : List (String × Json) → List Char
  | [] => []
  | [(k, v)] => '"' :: (escapeList k.data ++ '"' :: ':' :: stringifyV v)
  | (k, v) :: f2 :: rest =>
    '"' :: (escapeList k.data ++ '"' :: ':' :: stringifyV v) ++
      ',' :: stringifyFields (f2 :: rest)

end

/-- The result of `JSON.stringify` as a string. -/
def stringify (j : Json) : String :=
  ⟨stringifyV j⟩

/-! ## JSON parsing

A recursive-descent parser for the serialized form, used to state the
serialize-then-parse round-trip of the embedded state snapshot (the client
re-reads the snapshot with `JSON.parse`).  The parser works on character
lists and is fuelled; `jsonParse` supplies ample fuel.  It accepts exactly
the whitespace-free form `stringify` emits. -/

/-- Value of one hexadecimal digit character. -/
def hexVal? (c : Char) : Option Nat :=
  if '0' ≤ c ∧ c ≤ '9' then some (c.toNat - 48)
  else if 'a' ≤ c ∧ c ≤ 'f' then some (c.toNat - 87)
  else if 'A' ≤ c ∧ c ≤ 'F' then some (c.toNat - 55)
  else none

/-- Decoder for the character following a backslash in a JSON string,
returning the decoded character and the remaining input. -/
def parseEscape : List Char → Option (Char × List Char)
  | [] => none
  | e :: rest =>
    if e = '"' then some ('"', rest)
    else if e = '\\' then some ('\\', rest)
    else if e = '/' then some ('/', rest)
    else if e = 'b' then some (Char.ofNat 8, rest)
    else if e = 't' then some (Char.ofNat 9, rest)
    else if e = 'n' then some (Char.ofNat 10, rest)
    else if e = 'f' then some (Char.ofNat 12, rest)
    else if e = 'r' then some (Char.ofNat 13, rest)
    else if e = 'u' then
      match rest with
      | c1 :: c2 :: c3 :: c4 :: rest2 =>
        match hexVal? c1, hexVal? c2, hexVal? c3, hexVal? c4 with
        | some h1, some h2, some h3, some h4 =>
          some (Char.ofNat (4096 * h1 + 256 * h2 + 16 * h3 + h4), rest2)
        | _, _, _, _ => none
      | _ => none
    else none

/-- Parser for a JSON string body up to and including the closing quote,
returning the decoded characters and the remaining input. -/
def parseStringBody : Nat → List Char → Option (List Char × List Char)
  | 0, _ => none
  | _ + 1, [] => none
  | fuel + 1, c :: rest =>
    if c = '"' then some ([], rest)
    else if c = '\\' then
      match parseEscape rest with
      | some (d, rest2) => (parseStringBody fuel rest2).map (fun p => (d :: p.1, p.2))
      | none => none
    else (parseStringBody fuel rest).map (fun p => (c :: p.1, p.2))

/-- Maximal run of decimal digit characters and the remaining input. -/
def takeDigits : List Char → List Char × List Char
  | [] => ([], [])
  | c :: rest =>
    if c.isDigit then
      let p := takeDigits rest
      (c :: p.1, p.2)
    else ([], c :: rest)

/-- Value of a sequence of decimal digit characters. -/
def digitsVal (ds : List Char) : Nat :=
  ds.foldl (fun a c => a * 10 + (c.toNat - 48)) 0

mutual

/-- Parser for one JSON value, returning it and the remaining input. -/
def parseV : Nat → List Char → Option (Json × List Char)
  | 0, _ => none
  | _ + 1, [] => none
  | fuel + 1, c :: rest =>
    if c = 'n' then
      match rest with
      | 'u' :: 'l' :: 'l' :: rest2 => some (Json.null, rest2)
      | _ => none
    else if c = 't' then
      match rest with
      | 'r' :: 'u' :: 'e' :: rest2 => some (Json.bool true, rest2)
      | _ => none
    else if c = 'f' then
      match rest with
      | 'a' :: 'l' :: 's' :: 'e' :: rest2 => some (Json.bool false, rest2)
      | _ => none
    else if c = '"' then
      (parseStringBody fuel rest).map (fun p => (Json.str ⟨p.1⟩, p.2))
    else if c = '[' then
      match rest with
      | [] => none
      | d :: rest2 =>
        if d = ']' then some (Json.arr [], rest2)
        else (parseElems fuel (d :: rest2)).map (fun p => (Json.arr p.1, p.2))
    else if c = '\x7b' then
      match rest with
      | [] => none
      | d :: rest2 =>
        if d = '\x7d' then some (Json.obj [], rest2)
        else (parseFields fuel (d :: rest2)).map (fun p => (Json.obj p.1, p.2))
    else if c = '-' then
      match takeDigits rest with
      | ([], _) => none
      | (d :: ds, rest2) => some (Json.num (-(digitsVal (d :: ds) : Int)), rest2)
    else if c.isDigit then
      some (Json.num ((digitsVal (takeDigits (c :: rest)).1 : Int)), (takeDigits (c :: rest)).2)
    else none

/-- Parser for one or more comma-separated array elements followed by `]`. -/
def parseElems : Nat → List Char → Option (List Json × List Char)
  | 0, _ => none
  | fuel + 1, cs =>
    match parseV fuel cs with
    | none => none
    | some (j, rest) =>
      match rest with
      | ',' :: rest2 => (parseElems fuel rest2).map (fun p => (j :: p.1, p.2))
      | ']' :: rest2 => some ([j], rest2)
      | _ => none

/-- Parser for one or more comma-separated object members followed by the
closing brace. -/
def parseFields : Nat → List Char → Option (List (String × Json) × List Char)
  | 0, _ => none
  | fuel + 1, cs =>
    match cs with
    | '"' :: rest =>
      match parseStringBody fuel rest with
      | none => none
      | some (k, rest1) =>
        match rest1 with
        | ':' :: rest2 =>
          match parseV fuel rest2 with
          | none => none
          | some (v, rest3) =>
            match rest3 with
            | ',' :: rest4 => (parseFields fuel rest4).map (fun p => ((⟨k⟩, v) :: p.1, p.2))
            | '\x7d' :: rest4 => some ([(⟨k⟩, v)], rest4)
            | _ => none
        | _ => none
    | _ => none

end

/-- Parse of a complete JSON document, `JSON.parse` on `stringify`'s image. -/
def jsonParse (s : String) : Option Json :=
  match parseV (s.data.length + 1) s.data with
  | some (j, []) => some j
  | _ => none

/-! ## Round-trip lemmas: numbers -/

/-- The input may continue after a serialized value only with a non-digit
(in the serialized forms: a separator, a closing bracket, or nothing), so
that maximal-munch number parsing stops at the value boundary. -/
def sepOk : List Char → Prop
  | [] => True
  | c :: _ => c.isDigit = false

theorem char_digit_toNat (m : Nat) (h : m < 10) :
    (Char.ofNat (48 + m)).toNat = 48 + m ∧ (Char.ofNat (48 + m)).isDigit = true := by
  interval_cases m <;> exact ⟨by decide, by decide⟩

theorem natDigits_all_digits (n : Nat) : ∀ c ∈ natDigits n, c.isDigit = true := by
  induction n using Nat.strong_induction_on with
  | _ n ih =>
    rw [natDigits]
    split
    · intro c hc
      rw [List.mem_singleton] at hc
      subst hc
      exact (char_digit_toNat n (by omega)).2
    · intro c hc
      rw [List.mem_append] at hc
      rcases hc with hc | hc
      · exact ih (n / 10) (Nat.div_lt_self (by omega) (by omega)) c hc
      · rw [List.mem_singleton] at hc
        subst hc
        exact (char_digit_toNat (n % 10) (Nat.mod_lt _ (by omega))).2

theorem natDigits_ne_nil (n : Nat) : natDigits n ≠ [] := by
  rw [natDigits]
  split
  · simp
  · simp

theorem digitsVal_append_last (ds : List Char) (d : Char) :
    digitsVal (ds ++ [d]) = digitsVal ds * 10 + (d.toNat - 48) := by
  unfold digitsVal
  rw [List.foldl_append]
  rfl

theorem digitsVal_natDigits (n : Nat) : digitsVal (natDigits n) = n := by
  induction n using Nat.strong_induction_on with
  | _ n ih =>
    rw [natDigits]
    split
    · rename_i h
      show digitsVal [Char.ofNat (48 + n)] = n
      unfold digitsVal
      simp [List.foldl, (char_digit_toNat n h).1]
    · rename_i h
      rw [digitsVal_append_last, ih (n / 10) (Nat.div_lt_self (by omega) (by omega)),
        (char_digit_toNat (n % 10) (Nat.mod_lt _ (by omega))).1]
      omega

theorem takeDigits_digits_append (ds rest : List Char)
    (hds : ∀ c ∈ ds, c.isDigit = true) (hr : sepOk rest) :
    takeDigits (ds ++ rest) = (ds, rest) := by
  induction ds with
  | nil =>
    cases rest with
    | nil => rfl
    | cons c cs =>
      unfold sepOk at hr
      simp only [List.nil_append]
      rw [takeDigits, if_neg (by simp [hr])]
  | cons d ds ih =>
    have hd : d.isDigit = true := hds d (List.mem_cons_self _ _)
    simp only [List.cons_append]
    rw [takeDigits, if_pos hd]
    rw [ih (fun c hc => hds c (List.mem_cons_of_mem _ hc))]

/-! ## Round-trip lemmas: strings -/

theorem hexVal?_hexDigitChar (n : Nat) (h : n < 16) :
    hexVal? (hexDigitChar n) = some n := by
  interval_cases n <;> decide

theorem parseEscape_uEscape (n : Nat) (h : n < 65536) (rest : List Char) :
    parseEscape ('u' :: (toHex4 n ++ rest)) = some (Char.ofNat n, rest) := by
  have h1 := hexVal?_hexDigitChar (n / 4096 % 16) (Nat.mod_lt _ (by omega))
  have h2 := hexVal?_hexDigitChar (n / 256 % 16) (Nat.mod_lt _ (by omega))
  have h3 := hexVal?_hexDigitChar (n / 16 % 16) (Nat.mod_lt _ (by omega))
  have h4 := hexVal?_hexDigitChar (n % 16) (Nat.mod_lt _ (by omega))
  have key : 4096 * (n / 4096 % 16) + 256 * (n / 256 % 16) + 16 * (n / 16 % 16) + n % 16 = n := by
    omega
  simp [parseEscape, toHex4, h1, h2, h3, h4, key]

theorem parseStringBody_escapeList (s rest : List Char) (fuel : Nat)
    (hfuel : s.length + 1 ≤ fuel) :
    parseStringBody fuel (escapeList s ++ '"' :: rest) = some (s, rest) := by
  induction s generalizing fuel with
  | nil =>
    obtain ⟨f, rfl⟩ : ∃ f, fuel = f + 1 := ⟨fuel - 1, by omega⟩
    rw [escapeList, List.nil_append, parseStringBody, if_pos rfl]
  | cons c s ih =>
    obtain ⟨f, rfl⟩ : ∃ f, fuel = f + 1 := ⟨fuel - 1, by omega⟩
    have hf : s.length + 1 ≤ f := by
      simp only [List.length_cons] at hfuel
      omega
    rw [escapeList, List.append_assoc]
    unfold escapeChar
    by_cases h1 : c = '"'
    · subst h1
      rw [if_pos rfl]
      show parseStringBody (f + 1) ('\\' :: '"' :: (escapeList s ++ '"' :: rest)) = _
      rw [parseStringBody, if_neg (by decide), if_pos rfl]
      simp [parseEscape, ih f hf]
    rw [if_neg h1]
    by_cases h2 : c = '\\'
    · subst h2
      rw [if_pos rfl]
      show parseStringBody (f + 1) ('\\' :: '\\' :: (escapeList s ++ '"' :: rest)) = _
      rw [parseStringBody, if_neg (by decide), if_pos rfl]
      simp [parseEscape, ih f hf]
    rw [if_neg h2]
    by_cases h3 : c = Char.ofNat 8
    · subst h3
      rw [if_pos rfl]
      show parseStringBody (f + 1) ('\\' :: 'b' :: (escapeList s ++ '"' :: rest)) = _
      rw [parseStringBody, if_neg (by decide), if_pos rfl]
      simp [parseEscape, ih f hf]
    rw [if_neg h3]
    by_cases h4 : c = Char.ofNat 9
    · subst h4
      rw [if_pos rfl]
      show parseStringBody (f + 1) ('\\' :: 't' :: (escapeList s ++ '"' :: rest)) = _
      rw [parseStringBody, if_neg (by decide), if_pos rfl]
      simp [parseEscape, ih f hf]
    rw [if_neg h4]
    by_cases h5 : c = Char.ofNat 10
    · subst h5
      rw [if_pos rfl]
      show parseStringBody (f + 1) ('\\' :: 'n' :: (escapeList s ++ '"' :: rest)) = _
      rw [parseStringBody, if_neg (by decide), if_pos rfl]
      simp [parseEscape, ih f hf]
    rw [if_neg h5]
    by_cases h6 : c = Char.ofNat 12
    · subst h6
      rw [if_pos rfl]
      show parseStringBody (f + 1) ('\\' :: 'f' :: (escapeList s ++ '"' :: rest)) = _
      rw [parseStringBody, if_neg (by decide), if_pos rfl]
      simp [parseEscape, ih f hf]
    rw [if_neg h6]
    by_cases h7 : c = Char.ofNat 13
    · subst h7
      rw [if_pos rfl]
      show parseStringBody (f + 1) ('\\' :: 'r' :: (escapeList s ++ '"' :: rest)) = _
      rw [parseStringBody, if_neg (by decide), if_pos rfl]
      simp [parseEscape, ih f hf]
    rw [if_neg h7]
    by_cases h8 : c.toNat < 32
    · rw [if_pos h8]
      show parseStringBody (f + 1)
        ('\\' :: ('u' :: (toHex4 c.toNat ++ (escapeList s ++ '"' :: rest)))) = _
      rw [parseStringBody, if_neg (by decide), if_pos rfl]
      rw [parseEscape_uEscape c.toNat (by omega)]
      simp [Char.ofNat_toNat, ih f hf]
    rw [if_neg h8]
    show parseStringBody (f + 1) (c :: (escapeList s ++ '"' :: rest)) = _
    rw [parseStringBody, if_neg h1, if_neg h2]
    simp [ih f hf]

/-! ## Round-trip lemmas: fuel measure and serialized shapes -/

mutual

/-- Fuel bound sufficient for `parseV` on the serialization of a value. -/
def jsizeV : Json → Nat
  | .null => 1
  | .bool _ => 1
  | .num _ => 1
  | .str s => s.length + 2
  | .arr [] => 1
  | .arr (e :: es) => jsizeElems (e :: es) + 1
  | .obj [] => 1
  | .obj (f :: fs) => jsizeFields (f :: fs) + 1

/-- Fuel bound sufficient for `parseElems` on serialized array elements. -/
def jsizeElems : List Json → Nat
  | [] => 0
  | e :: es => jsizeV e + jsizeElems es + 1

/-- Fuel bound sufficient for `parseFields` on serialized object members. -/
def jsizeFields : List (String × Json) → Nat
  | [] => 0
  | (k, v) :: fs => k.length + jsizeV v + jsizeFields fs + 2

end

theorem jsizeV_pos (j : Json) : 1 ≤ jsizeV j := by
  cases j with
  | null => exact le_refl 1
  | bool b => exact le_refl 1
  | num n => exact le_refl 1
  | str s => simp [jsizeV]
  | arr elems => cases elems <;> simp [jsizeV]
  | obj fields => cases fields <;> simp [jsizeV]

theorem isDigit_ne_specials (c : Char) (h : c.isDigit = true) :
    c ≠ 'n' ∧ c ≠ 't' ∧ c ≠ 'f' ∧ c ≠ '"' ∧ c ≠ '[' ∧ c ≠ '\x7b' ∧ c ≠ '-' ∧ c ≠ ']' := by
  refine ⟨?_, ?_, ?_, ?_, ?_, ?_, ?_, ?_⟩ <;>
    exact fun he => absurd h (he ▸ by decide)

/-- Every serialized value is nonempty, and its first character is never the
array terminator. -/
theorem stringifyV_cons (j : Json) : ∃ d ds, stringifyV j = d :: ds ∧ d ≠ ']' := by
  cases j with
  | null => exact ⟨'n', _, rfl, by decide⟩
  | bool b => cases b with
    | true => exact ⟨'t', _, rfl, by decide⟩
    | false => exact ⟨'f', _, rfl, by decide⟩
  | num n =>
    show ∃ d ds, intChars n = d :: ds ∧ d ≠ ']'
    unfold intChars
    by_cases h : n < 0
    · rw [if_pos h]
      exact ⟨'-', _, rfl, by decide⟩
    · rw [if_neg h]
      obtain ⟨d, ds, hds⟩ := List.exists_cons_of_ne_nil (natDigits_ne_nil n.toNat)
      refine ⟨d, ds, hds, ?_⟩
      have hd : d.isDigit = true :=
        natDigits_all_digits n.toNat d (by rw [hds]; exact List.mem_cons_self _ _)
      exact (isDigit_ne_specials d hd).2.2.2.2.2.2.2
  | str s => exact ⟨'"', _, rfl, by decide⟩
  | arr elems => exact ⟨'[', _, rfl, by decide⟩
  | obj fields => exact ⟨'\x7b', _, rfl, by decide⟩

/-- Serialized nonempty array elements start with the first element's
serialization. -/
theorem stringifyElems_head (e : Json) (es : List Json) :
    ∃ t, stringifyElems (e :: es) = stringifyV e ++ t := by
  cases es with
  | nil => exact ⟨[], by simp [stringifyElems]⟩
  | cons e2 es => exact ⟨',' :: stringifyElems (e2 :: es), rfl⟩

theorem sepOk_cons (c : Char) (cs : List Char) (h : c.isDigit = false) : sepOk (c :: cs) := h

theorem stringLength_data (s : String) : s.length = s.data.length := rfl

set_option maxHeartbeats 1600000 in
/-- Unfolding of `parseV` at positive fuel on a nonempty input. -/
theorem parseV_cons (fuel : Nat) (c : Char) (cs : List Char) :
    parseV (fuel + 1) (c :: cs) =
      (if c = 'n' then
        match cs with
        | 'u' :: 'l' :: 'l' :: rest2 => some (Json.null, rest2)
        | _ => none
      else if c = 't' then
        match cs with
        | 'r' :: 'u' :: 'e' :: rest2 => some (Json.bool true, rest2)
        | _ => none
      else if c = 'f' then
        match cs with
        | 'a' :: 'l' :: 's' :: 'e' :: rest2 => some (Json.bool false, rest2)
        | _ => none
      else if c = '"' then
        (parseStringBody fuel cs).map (fun p => (Json.str ⟨p.1⟩, p.2))
      else if c = '[' then
        match cs with
        | [] => none
        | d :: rest2 =>
          if d = ']' then some (Json.arr [], rest2)
          else (parseElems fuel (d :: rest2)).map (fun p => (Json.arr p.1, p.2))
      else if c = '\x7b' then
        match cs with
        | [] => none
        | d :: rest2 =>
          if d = '\x7d' then some (Json.obj [], rest2)
          else (parseFields fuel (d :: rest2)).map (fun p => (Json.obj p.1, p.2))
      else if c = '-' then
        match takeDigits cs with
        | ([], _) => none
        | (d :: ds, rest2) => some (Json.num (-(digitsVal (d :: ds) : Int)), rest2)
      else if c.isDigit then
        some (Json.num ((digitsVal (takeDigits (c :: cs)).1 : Int)), (takeDigits (c :: cs)).2)
      else none) := by
  rw [parseV.eq_def]


set_option maxHeartbeats 1600000 in
/-- Unfolding of `parseElems` at positive fuel. -/
theorem parseElems_succ (fuel : Nat) (cs : List Char) :
    parseElems (fuel + 1) cs =
      (match parseV fuel cs with
      | none => none
      | some (j, rest) =>
        match rest with
        | ',' :: rest2 => (parseElems fuel rest2).map (fun p => (j :: p.1, p.2))
        | ']' :: rest2 => some ([j], rest2)
        | _ => none) := by
  rw [parseElems.eq_def]

set_option maxHeartbeats 1600000 in
/-- Unfolding of `parseFields` at positive fuel on input starting with a
quoted key. -/
theorem parseFields_quote (fuel : Nat) (cs : List Char) :
    parseFields (fuel + 1) ('"' :: cs) =
      (match parseStringBody fuel cs with
      | none => none
      | some (k, rest1) =>
        match rest1 with
        | ':' :: rest2 =>
          match parseV fuel rest2 with
          | none => none
          | some (v, rest3) =>
            match rest3 with
            | ',' :: rest4 => (parseFields fuel rest4).map (fun p => ((⟨k⟩, v) :: p.1, p.2))
            | '\x7d' :: rest4 => some ([(⟨k⟩, v)], rest4)
            | _ => none
        | _ => none) := by
  rw [parseFields.eq_def]
  rfl

mutual

/-- Round trip: parsing a serialized value consumes exactly the serialized
characters and recovers the value. -/
theorem parseV_stringifyV : ∀ (j : Json) (fuel : Nat) (rest : List Char),
    jsizeV j ≤ fuel → sepOk rest →
    parseV fuel (stringifyV j ++ rest) = some (j, rest)
  | .null, fuel, rest, hf, _ => by
    obtain ⟨f, rfl⟩ : ∃ f, fuel = f + 1 := ⟨fuel - 1, by simp [jsizeV] at hf; omega⟩
    show parseV (f + 1) ('n' :: 'u' :: 'l' :: 'l' :: rest) = some (Json.null, rest)
    rw [parseV_cons, if_pos rfl]
    rfl
  | .bool true, fuel, rest, hf, _ => by
    obtain ⟨f, rfl⟩ : ∃ f, fuel = f + 1 := ⟨fuel - 1, by simp [jsizeV] at hf; omega⟩
    show parseV (f + 1) ('t' :: 'r' :: 'u' :: 'e' :: rest) = some (Json.bool true, rest)
    rw [parseV_cons, if_neg (by decide), if_pos rfl]
    rfl
  | .bool false, fuel, rest, hf, _ => by
    obtain ⟨f, rfl⟩ : ∃ f, fuel = f + 1 := ⟨fuel - 1, by simp [jsizeV] at hf; omega⟩
    show parseV (f + 1) ('f' :: 'a' :: 'l' :: 's' :: 'e' :: rest) = some (Json.bool false, rest)
    rw [parseV_cons, if_neg (by decide), if_neg (by decide), if_pos rfl]
    rfl
  | .num n, fuel, rest, hf, hr => by
    obtain ⟨f, rfl⟩ : ∃ f, fuel = f + 1 := ⟨fuel - 1, by simp [jsizeV] at hf; omega⟩
    show parseV (f + 1) (intChars n ++ rest) = some (Json.num n, rest)
    unfold intChars
    by_cases hneg : n < 0
    · rw [if_pos hneg]
      show parseV (f + 1) ('-' :: (natDigits n.natAbs ++ rest)) = some (Json.num n, rest)
      obtain ⟨d, ds, hds⟩ := List.exists_cons_of_ne_nil (natDigits_ne_nil n.natAbs)
      rw [parseV_cons, if_neg (by decide), if_neg (by decide), if_neg (by decide),
        if_neg (by decide), if_neg (by decide), if_neg (by decide), if_pos rfl]
      rw [takeDigits_digits_append _ _ (natDigits_all_digits n.natAbs) hr]
      rw [hds]
      show some (Json.num (-(digitsVal (d :: ds) : Int)), rest) = some (Json.num n, rest)
      rw [← hds, digitsVal_natDigits]
      have hval : -((n.natAbs : Int)) = n := by omega
      rw [hval]
    · rw [if_neg hneg]
      obtain ⟨d, ds, hds⟩ := List.exists_cons_of_ne_nil (natDigits_ne_nil n.toNat)
      have hd : d.isDigit = true :=
        natDigits_all_digits n.toNat d (by rw [hds]; exact List.mem_cons_self _ _)
      obtain ⟨hn1, hn2, hn3, hn4, hn5, hn6, hn7, _⟩ := isDigit_ne_specials d hd
      rw [hds, List.cons_append, parseV_cons, if_neg hn1, if_neg hn2, if_neg hn3, if_neg hn4,
        if_neg hn5, if_neg hn6, if_neg hn7, if_pos hd]
      rw [← List.cons_append, ← hds,
        takeDigits_digits_append _ _ (natDigits_all_digits n.toNat) hr]
      show some (Json.num ((digitsVal (natDigits n.toNat) : Int)), rest) = some (Json.num n, rest)
      rw [digitsVal_natDigits]
      have hval : ((n.toNat : Nat) : Int) = n := Int.toNat_of_nonneg (by omega)
      rw [hval]
  | .str s, fuel, rest, hf, _ => by
    obtain ⟨f, rfl⟩ : ∃ f, fuel = f + 1 := ⟨fuel - 1, by simp [jsizeV] at hf; omega⟩
    have hlen : s.data.length + 1 ≤ f := by
      simp only [jsizeV] at hf
      rw [stringLength_data] at hf
      omega
    show parseV (f + 1) ('"' :: ((escapeList s.data ++ ['"']) ++ rest)) = some (Json.str s, rest)
    rw [List.append_assoc]
    simp only [List.singleton_append]
    rw [parseV_cons, if_neg (by decide), if_neg (by decide), if_neg (by decide), if_pos rfl]
    rw [parseStringBody_escapeList s.data rest f hlen]
    rfl
  | .arr [], fuel, rest, hf, _ => by
    obtain ⟨f, rfl⟩ : ∃ f, fuel = f + 1 := ⟨fuel - 1, by simp [jsizeV] at hf; omega⟩
    show parseV (f + 1) ('[' :: ']' :: rest) = some (Json.arr [], rest)
    rw [parseV_cons, if_neg (by decide), if_neg (by decide), if_neg (by decide),
      if_neg (by decide), if_pos rfl]
    rfl
  | .arr (e :: es), fuel, rest, hf, _ => by
    obtain ⟨f, rfl⟩ : ∃ f, fuel = f + 1 := ⟨fuel - 1, by simp [jsizeV] at hf; omega⟩
    have hsz : jsizeElems (e :: es) ≤ f := by
      simp only [jsizeV] at hf; omega
    obtain ⟨d, ds, hde, hdn⟩ := stringifyV_cons e
    obtain ⟨t, ht⟩ := stringifyElems_head e es
    have hE : stringifyElems (e :: es) ++ ']' :: rest = d :: (ds ++ (t ++ ']' :: rest)) := by
      rw [ht, hde]; simp [List.append_assoc]
    show parseV (f + 1) ('[' :: ((stringifyElems (e :: es) ++ [']']) ++ rest)) =
      some (Json.arr (e :: es), rest)
    rw [List.append_assoc]
    simp only [List.singleton_append]
    rw [hE, parseV_cons, if_neg (by decide), if_neg (by decide), if_neg (by decide),
      if_neg (by decide), if_pos rfl]
    show (if d = ']' then some (Json.arr [], ds ++ (t ++ ']' :: rest))
      else (parseElems f (d :: (ds ++ (t ++ ']' :: rest)))).map
        (fun p => (Json.arr p.1, p.2))) = some (Json.arr (e :: es), rest)
    rw [if_neg hdn, ← hE,
      parseElems_stringifyElems (e :: es) f rest (by simp) hsz]
    rfl
  | .obj [], fuel, rest, hf, _ => by
    obtain ⟨f, rfl⟩ : ∃ f, fuel = f + 1 := ⟨fuel - 1, by simp [jsizeV] at hf; omega⟩
    show parseV (f + 1) ('\x7b' :: '\x7d' :: rest) = some (Json.obj [], rest)
    rw [parseV_cons, if_neg (by decide), if_neg (by decide), if_neg (by decide),
      if_neg (by decide), if_neg (by decide), if_pos rfl]
    rfl
  | .obj ((k, v) :: fs), fuel, rest, hf, _ => by
    obtain ⟨f, rfl⟩ : ∃ f, fuel = f + 1 := ⟨fuel - 1, by simp [jsizeV] at hf; omega⟩
    have hsz : jsizeFields ((k, v) :: fs) ≤ f := by
      simp only [jsizeV] at hf; omega
    obtain ⟨t, ht⟩ : ∃ t, stringifyFields ((k, v) :: fs) =
        '"' :: ((escapeList k.data ++ '"' :: ':' :: stringifyV v) ++ t) := by
      cases fs with
      | nil => exact ⟨[], by simp [stringifyFields]⟩
      | cons f2 fs => exact ⟨',' :: stringifyFields (f2 :: fs), by
          show stringifyFields ((k, v) :: f2 :: fs) = _
          rw [stringifyFields]
          simp⟩
    show parseV (f + 1) ('\x7b' :: ((stringifyFields ((k, v) :: fs) ++ ['\x7d']) ++ rest)) =
      some (Json.obj ((k, v) :: fs), rest)
    rw [List.append_assoc]
    simp only [List.singleton_append]
    rw [ht, List.cons_append, parseV_cons, if_neg (by decide), if_neg (by decide),
      if_neg (by decide), if_neg (by decide), if_neg (by decide), if_pos rfl]
    show (if '"' = '\x7d' then
        some (Json.obj [], ((escapeList k.data ++ '"' :: ':' :: stringifyV v) ++ t) ++ '\x7d' :: rest)
      else (parseFields f
          ('"' :: (((escapeList k.data ++ '"' :: ':' :: stringifyV v) ++ t) ++ '\x7d' :: rest))).map
        (fun p => (Json.obj p.1, p.2))) = some (Json.obj ((k, v) :: fs), rest)
    rw [if_neg (by decide), ← List.cons_append, ← ht,
      parseFields_stringifyFields ((k, v) :: fs) f rest (by simp) hsz]
    rfl

/-- Round trip for one or more serialized array elements up to `]`. -/
theorem parseElems_stringifyElems : ∀ (es : List Json) (fuel : Nat) (rest : List Char),
    es ≠ [] → jsizeElems es ≤ fuel →
    parseElems fuel (stringifyElems es ++ ']' :: rest) = some (es, rest)
  | [], _, _, hne, _ => absurd rfl hne
  | [e], fuel, rest, _, hsz => by
    obtain ⟨f, rfl⟩ : ∃ f, fuel = f + 1 :=
      ⟨fuel - 1, by simp [jsizeElems] at hsz; omega⟩
    have he : jsizeV e ≤ f := by simp [jsizeElems] at hsz; omega
    rw [parseElems_succ]
    rw [show stringifyElems [e] = stringifyV e from rfl]
    rw [parseV_stringifyV e f (']' :: rest) he (sepOk_cons ']' rest (by decide))]
    rfl
  | e :: e2 :: es, fuel, rest, _, hsz => by
    obtain ⟨f, rfl⟩ : ∃ f, fuel = f + 1 :=
      ⟨fuel - 1, by simp [jsizeElems] at hsz; omega⟩
    have he : jsizeV e ≤ f := by simp [jsizeElems] at hsz; omega
    have he2 : jsizeElems (e2 :: es) ≤ f := by
      simp only [jsizeElems] at hsz ⊢; omega
    rw [show stringifyElems (e :: e2 :: es) ++ ']' :: rest =
        stringifyV e ++ (',' :: (stringifyElems (e2 :: es) ++ ']' :: rest)) from by
      rw [show stringifyElems (e :: e2 :: es) =
        stringifyV e ++ ',' :: stringifyElems (e2 :: es) from rfl]
      simp]
    rw [parseElems_succ,
      parseV_stringifyV e f _ he (sepOk_cons ',' _ (by decide))]
    show (parseElems f (stringifyElems (e2 :: es) ++ ']' :: rest)).map
      (fun p => (e :: p.1, p.2)) = some (e :: e2 :: es, rest)
    rw [parseElems_stringifyElems (e2 :: es) f rest (by simp) he2]
    rfl

/-- Round trip for one or more serialized object members up to the closing
brace. -/
theorem parseFields_stringifyFields : ∀ (fs : List (String × Json)) (fuel : Nat)
    (rest : List Char), fs ≠ [] → jsizeFields fs ≤ fuel →
    parseFields fuel (stringifyFields fs ++ '\x7d' :: rest) = some (fs, rest)
  | [], _, _, hne, _ => absurd rfl hne
  | [(k, v)], fuel, rest, _, hsz => by
    obtain ⟨f, rfl⟩ : ∃ f, fuel = f + 1 :=
      ⟨fuel - 1, by simp [jsizeFields] at hsz; have := jsizeV_pos v; omega⟩
    have hk : k.data.length + 1 ≤ f := by
      have := jsizeV_pos v
      simp only [jsizeFields] at hsz
      rw [stringLength_data] at hsz
      omega
    have hv : jsizeV v ≤ f := by simp [jsizeFields] at hsz; omega
    rw [show stringifyFields [(k, v)] ++ '\x7d' :: rest =
        '"' :: (escapeList k.data ++ '"' :: (':' :: (stringifyV v ++ '\x7d' :: rest))) from by
      rw [show stringifyFields [(k, v)] =
        '"' :: (escapeList k.data ++ '"' :: ':' :: stringifyV v) from rfl]
      simp]
    rw [parseFields_quote]
    rw [parseStringBody_escapeList k.data (':' :: (stringifyV v ++ '\x7d' :: rest)) f hk]
    show (match parseV f (stringifyV v ++ '\x7d' :: rest) with
      | none => none
      | some (v', rest3) =>
        match rest3 with
        | ',' :: rest4 => (parseFields f rest4).map (fun p => ((⟨k.data⟩, v') :: p.1, p.2))
        | '\x7d' :: rest4 => some ([(⟨k.data⟩, v')], rest4)
        | _ => none) = some ([(k, v)], rest)
    rw [parseV_stringifyV v f _ hv (sepOk_cons '\x7d' rest (by decide))]
    rfl
  | (k, v) :: f2 :: fs, fuel, rest, _, hsz => by
    obtain ⟨f, rfl⟩ : ∃ f, fuel = f + 1 :=
      ⟨fuel - 1, by simp [jsizeFields] at hsz; have := jsizeV_pos v; omega⟩
    have hk : k.data.length + 1 ≤ f := by
      have := jsizeV_pos v
      simp only [jsizeFields] at hsz
      rw [stringLength_data] at hsz
      omega
    have hv : jsizeV v ≤ f := by simp [jsizeFields] at hsz; omega
    have hfs : jsizeFields (f2 :: fs) ≤ f := by
      simp only [jsizeFields] at hsz ⊢; omega
    rw [show stringifyFields ((k, v) :: f2 :: fs) ++ '\x7d' :: rest =
        '"' :: (escapeList k.data ++ '"' :: (':' :: (stringifyV v ++
          ',' :: (stringifyFields (f2 :: fs) ++ '\x7d' :: rest)))) from by
      rw [show stringifyFields ((k, v) :: f2 :: fs) =
        '"' :: (escapeList k.data ++ '"' :: ':' :: stringifyV v) ++
          ',' :: stringifyFields (f2 :: fs) from rfl]
      simp]
    rw [parseFields_quote]
    rw [parseStringBody_escapeList k.data
      (':' :: (stringifyV v ++ ',' :: (stringifyFields (f2 :: fs) ++ '\x7d' :: rest))) f hk]
    show (match parseV f (stringifyV v ++ ',' :: (stringifyFields (f2 :: fs) ++ '\x7d' :: rest)) with
      | none => none
      | some (v', rest3) =>
        match rest3 with
        | ',' :: rest4 => (parseFields f rest4).map (fun p => ((⟨k.data⟩, v') :: p.1, p.2))
        | '\x7d' :: rest4 => some ([(⟨k.data⟩, v')], rest4)
        | _ => none) = some ((k, v) :: f2 :: fs, rest)
    rw [parseV_stringifyV v f _ hv (sepOk_cons ',' _ (by decide))]
    show (parseFields f (stringifyFields (f2 :: fs) ++ '\x7d' :: rest)).map
      (fun p => ((⟨k.data⟩, v) :: p.1, p.2)) = some ((k, v) :: f2 :: fs, rest)
    rw [parseFields_stringifyFields (f2 :: fs) f rest (by simp) hfs]
    rfl

end

/-! ## Top-level round trip -/

theorem escapeChar_length_pos (c : Char) : 1 ≤ (escapeChar c).length := by
  unfold escapeChar
  split_ifs <;> simp [toHex4]

theorem escapeList_length_ge (s : List Char) : s.length ≤ (escapeList s).length := by
  induction s with
  | nil => simp [escapeList]
  | cons c cs ih =>
    rw [escapeList]
    rw [List.length_append, List.length_cons]
    have := escapeChar_length_pos c
    omega

mutual

theorem jsizeV_le_length : ∀ j : Json, jsizeV j ≤ (stringifyV j).length
  | .null => by simp [jsizeV, stringifyV]
  | .bool true => by simp [jsizeV, stringifyV]
  | .bool false => by simp [jsizeV, stringifyV]
  | .num n => by
    show jsizeV (Json.num n) ≤ (intChars n).length
    unfold intChars
    by_cases h : n < 0
    · rw [if_pos h]
      simp [jsizeV]
    · rw [if_neg h]
      obtain ⟨d, ds, hds⟩ := List.exists_cons_of_ne_nil (natDigits_ne_nil n.toNat)
      rw [hds]
      simp [jsizeV]
  | .str s => by
    show s.length + 2 ≤ ('"' :: (escapeList s.data ++ ['"'])).length
    rw [List.length_cons, List.length_append, List.length_cons, List.length_nil,
      stringLength_data]
    have := escapeList_length_ge s.data
    omega
  | .arr [] => by simp [jsizeV, stringifyV, stringifyElems]
  | .arr (e :: es) => by
    show jsizeElems (e :: es) + 1 ≤ ('[' :: (stringifyElems (e :: es) ++ [']'])).length
    rw [List.length_cons, List.length_append, List.length_cons, List.length_nil]
    have := jsizeElems_le_length (e :: es)
    omega
  | .obj [] => by simp [jsizeV, stringifyV, stringifyFields]
  | .obj (f :: fs) => by
    show jsizeFields (f :: fs) + 1 ≤ ('\x7b' :: (stringifyFields (f :: fs) ++ ['\x7d'])).length
    rw [List.length_cons, List.length_append, List.length_cons, List.length_nil]
    have := jsizeFields_le_length (f :: fs)
    omega

theorem jsizeElems_le_length : ∀ es : List Json,
    jsizeElems es ≤ (stringifyElems es).length + 1
  | [] => by simp [jsizeElems, stringifyElems]
  | [e] => by
    show jsizeV e + jsizeElems [] + 1 ≤ (stringifyV e).length + 1
    have := jsizeV_le_length e
    simp only [jsizeElems]
    omega
  | e :: e2 :: es => by
    show jsizeV e + jsizeElems (e2 :: es) + 1 ≤
      (stringifyV e ++ ',' :: stringifyElems (e2 :: es)).length + 1
    rw [List.length_append, List.length_cons]
    have h1 := jsizeV_le_length e
    have h2 := jsizeElems_le_length (e2 :: es)
    omega

theorem jsizeFields_le_length : ∀ fs : List (String × Json),
    jsizeFields fs ≤ (stringifyFields fs).length + 1
  | [] => by simp [jsizeFields, stringifyFields]
  | [(k, v)] => by
    show k.length + jsizeV v + jsizeFields [] + 2 ≤
      ('"' :: (escapeList k.data ++ '"' :: ':' :: stringifyV v)).length + 1
    rw [List.length_cons, List.length_append, List.length_cons, List.length_cons,
      stringLength_data]
    have h1 := jsizeV_le_length v
    have h2 := escapeList_length_ge k.data
    simp only [jsizeFields]
    omega
  | (k, v) :: f2 :: fs => by
    show k.length + jsizeV v + jsizeFields (f2 :: fs) + 2 ≤
      (('"' :: (escapeList k.data ++ '"' :: ':' :: stringifyV v)) ++
        ',' :: stringifyFields (f2 :: fs)).length + 1
    rw [List.length_append, List.length_cons, List.length_cons, List.length_append,
      List.length_cons, List.length_cons, stringLength_data]
    have h1 := jsizeV_le_length v
    have h2 := escapeList_length_ge k.data
    have h3 := jsizeFields_le_length (f2 :: fs)
    omega

end

/-- Parsing the exact output of the serializer recovers the value: the
serialize-then-parse round trip is the identity. -/
theorem jsonParse_stringify (j : Json) : jsonParse (stringify j) = some j := by
  unfold jsonParse stringify
  show (match parseV ((stringifyV j).length + 1) (stringifyV j) with
    | some (v, []) => some v
    | _ => none) = some j
  have h := parseV_stringifyV j ((stringifyV j).length + 1) []
    (by have := jsizeV_le_length j; omega) trivial
  rw [List.append_nil] at h
  rw [h]

/-! ## Page assembler (`renderFullPage`, lines 69-104 of server.js)

The template literal is a concatenation of fixed text and interpolations; it
is modelled piecewise, in source order.  `process.env` reads become the
explicit `Env` argument and the `Helmet.rewind()` read of the global head
fragments becomes the explicit `HelmetState` argument. -/

theorem strAppend_assoc (a b c : String) : a ++ b ++ c = a ++ (b ++ c) := by
  cases a with
  | mk la =>
    cases b with
    | mk lb =>
      cases c with
      | mk lc =>
        show String.mk ((la ++ lb) ++ lc) = String.mk (la ++ (lb ++ lc))
        exact congrArg String.mk (List.append_assoc la lb lc)

theorem strData_append (a b : String) : (a ++ b).data = a.data ++ b.data := by
  cases a with
  | mk la => cases b with
    | mk lb => rfl

/-- The head-fragment strings collected from the `Helmet.rewind()` global
(`head.base.toString()` and friends, lines 80-84). -/
structure HelmetState where
  base : String
  title : String
  meta : String
  link : String
  script : String

/-- The environment the assembler reads: `process.env.NODE_ENV` and the two
webpack manifest variables, the latter pre-parsed as in lines 73-74
(`none` when the environment variable is unset). -/
structure Env where
  nodeEnv : String
  webpackAssets : Option Json
  webpackChunkAssets : Option Json

/-- Template interpolation of a manifest lookup such as
`assetsManifest['/app.css']`: the manifest value for the key, or the text
`undefined` as JS interpolation would produce for a missing entry. -/
def manifestRef (m : Option Json) (key : String) : String :=
  match m with
  | some (Json.obj fields) =>
    match fields.find? (fun f => f.1 = key) with
    | some (_, Json.str v) => v
    | _ => "undefined"
  | _ => "undefined"

/-- Interpolation of `JSON.stringify(chunkManifest)` (line 96): `undefined`
when the manifest variable is unset. -/
def chunkManifestText (m : Option Json) : String :=
  match m with
  | some j => stringify j
  | none => "undefined"

/-- Lines 76-91 of the template: doctype, head fragments, the
production-only stylesheet link, the fixed links, and the opening of the
body up to the mount node `<div id="root">`. -/
def docHeadPart (env : Env) (head : HelmetState) : String :=
  "\n    <!doctype html>\n    <html>\n      <head>\n        " ++ head.base ++
  "\n        " ++ head.title ++
  "\n        " ++ head.meta ++
  "\n        " ++ head.link ++
  "\n        " ++ head.script ++
  "\n\n        " ++
  (if env.nodeEnv = "production" then
    "<link rel=\x27stylesheet\x27 href=\x27" ++ manifestRef env.webpackAssets "/app.css" ++
      "\x27 />"
  else "") ++
  "\n        <link href=\x27https://fonts.googleapis.com/css?family=Lato:400,300,700\x27 rel=\x27stylesheet\x27 type=\x27text/css\x27/>\n        <link rel=\"shortcut icon\" href=\"http://res.cloudinary.com/hashnode/image/upload/v1455629445/static_imgs/mern/mern-favicon-circle-fill.png\" type=\"image/png\" />\n      </head>\n      <body>\n        <div id=\"root\">"

/-- The opening tag of the inline script element (line 92). -/
def scriptOpenTag : String := "<script>"

/-- The closing tag of the inline script element (line 98). -/
def scriptCloseTag : String := "</script>"

/-- The fixed text binding the state snapshot (start of line 93). -/
def stateMarkerText : String := "\n          window.__INITIAL_STATE__ = "

/-- The inline script text after the serialized snapshot: the terminating
semicolon and the production-only chunk-manifest binding (lines 93-97). -/
def afterStateInScript (env : Env) : String :=
  ";\n          " ++
  (if env.nodeEnv = "production" then
    "//<![CDATA[\n          window.webpackManifest = " ++
      chunkManifestText env.webpackChunkAssets ++ ";\n          //]]>"
  else "") ++
  "\n        "

/-- The whole content of the inline script element: the global-state binding
assigned the serialized snapshot (`JSON.stringify(initialState)`, embedded
verbatim), plus the production chunk-manifest binding. -/
def inlineScriptContent (env : Env) (initialState : Json) : String :=
  stateMarkerText ++ stringify initialState ++ afterStateInScript env

/-- Lines 99-103: the vendor and app bundle script tags (manifest-resolved
in production, fixed paths otherwise) and the document close. -/
def docTailPart (env : Env) : String :=
  "\n        <script src=\x27" ++
  (if env.nodeEnv = "production" then manifestRef env.webpackAssets "/vendor.js"
    else "/vendor.js") ++
  "\x27></script>\n        <script src=\x27" ++
  (if env.nodeEnv = "production" then manifestRef env.webpackAssets "/app.js"
    else "/app.js") ++
  "\x27></script>\n      </body>\n    </html>\n  "

/-- The page assembler `renderFullPage(html, initialState)` (lines 69-104)
with its two implicit inputs made explicit: the environment and the Helmet
head-fragment global read by `Helmet.rewind()` (line 70). -/
def renderFullPage (env : Env) (head : HelmetState) (html : String)
    (initialState : Json) : String :=
  docHeadPart env head ++ html ++ "</div>\n        " ++ scriptOpenTag ++
    inlineScriptContent env initialState ++ scriptCloseTag ++ docTailPart env

/-- The empty head-fragment state `Helmet.rewind()` leaves behind. -/
def helmetEmpty : HelmetState := ⟨"", "", "", "", ""⟩

/-- The assembler with the `Helmet.rewind()` side effect made explicit as
state passing: the head-fragment global is consumed and reset. -/
def renderFullPageRw (env : Env) (helmetGlobal : HelmetState) (html : String)
    (initialState : Json) : String × HelmetState :=
  (renderFullPage env helmetGlobal html initialState, helmetEmpty)

/-! ## Error page and SSR middleware (lines 106-155 of server.js) -/

/-- A JS error as `renderError` consumes it (only `err.stack` is read). -/
structure JsError where
  stack : String

/-- The `softTab` constant of line 107. -/
def softTab : String := "&#32;&#32;&#32;&#32;"

def replaceNlChars : List Char → List Char
  | [] => []
  | c :: rest =>
    (if c = '\n' then ("<br>" ++ softTab).data else [c]) ++ replaceNlChars rest

/-- JS `err.stack.replace(/\n/g, `<br>${softTab}`)` (line 109). -/
def replaceNewlines (s : String) : String :=
  ⟨replaceNlChars s.data⟩

/-- The `errTrace` expression of lines 108-109: the formatted stack trace
outside production, nothing in production. -/
def errTrace (env : Env) (err : JsError) : String :=
  if env.nodeEnv ≠ "production" then
    ":<br><br><pre style=\"color:red\">" ++ softTab ++ replaceNewlines err.stack ++ "</pre>"
  else ""

/-- The error page builder `renderError` (lines 106-111): a full page whose
markup is the error text and whose state snapshot is the empty object. -/
def renderError (env : Env) (head : HelmetState) (err : JsError) : String :=
  renderFullPage env head ("Server Error" ++ errTrace env err) (Json.obj [])

/-- The outcome of `match({ routes, location })` (line 115): an error, a
redirect location (pathname and search), no match, or matched render props. -/
inductive MatchOutcome where
  | fail (err : JsError)
  | redirect (pathname search : String)
  | noMatch
  | matched

/-- The response the SSR middleware emits: `res.status(500).end(...)`,
`res.redirect(302, ...)`, `next()`, `next(error)`, or the 200 page. -/
inductive Response where
  | error500 (body : String)
  | redirect (code : Nat) (location : String)
  | nextHandler
  | nextError (err : JsError)
  | ok200 (body : String)

/-- External calls the middleware makes: `fetchComponentData` and
`renderToString`. -/
inductive Effect where
  | fetch
  | render

/-- Whether a response is the 500 error-document response. -/
def isServerError : Response → Bool
  | Response.error500 _ => true
  | _ => false

/-- The SSR middleware (lines 114-155): dispatch on the match outcome; on a
match, run `fetchComponentData` (its settled result is the `fetchResult`
argument), and on success render the view over the fetched state and emit
the assembled page with status 200; a rejected fetch reaches
`.catch((error) => next(error))`.  The effect list records which external
calls were made. -/
def ssrHandle (env : Env) (helmetGlobal : HelmetState)
    (fetchResult : Except JsError Json) (render : Json → String)
    (m : MatchOutcome) : Response × List Effect :=
  match m with
  | .fail err => (.error500 (renderError env helmetGlobal err), [])
  | .redirect pathname search => (.redirect 302 (pathname ++ search), [])
  | .noMatch => (.nextHandler, [])
  | .matched =>
    match fetchResult with
    | .error e => (.nextError e, [.fetch])
    | .ok finalState =>
      (.ok200 (renderFullPage env helmetGlobal (render finalState) finalState),
        [.fetch, .render])

/-- Sample concrete inputs for counterexamples. -/
def devEnv : Env := ⟨"development", none, none⟩

def sampleErr : JsError := ⟨"boom"⟩

def helmetA : HelmetState := ⟨"", "<title>T</title>", "", "", ""⟩

/-- The document region before the embedded state snapshot. -/
def pageBeforeState (env : Env) (head : HelmetState) (html : String) : String :=
  docHeadPart env head ++ html ++ "</div>\n        " ++ scriptOpenTag ++ stateMarkerText

/-- The document region after the embedded state snapshot. -/
def pageAfterState (env : Env) : String :=
  afterStateInScript env ++ scriptCloseTag ++ docTailPart env

/-- The assembled document is exactly the serialized snapshot embedded
verbatim between the fixed before/after regions. -/
theorem renderFullPage_decomp (env : Env) (head : HelmetState) (html : String) (s : Json) :
    renderFullPage env head html s =
      pageBeforeState env head html ++ stringify s ++ pageAfterState env := by
  unfold renderFullPage pageBeforeState pageAfterState inlineScriptContent
  simp [strAppend_assoc]

/-- An infix of a string stays an infix after embedding between two other
strings. -/
theorem infixOf_append_middle (pat : List Char) (a b c : String)
    (h : pat <:+: b.data) : pat <:+: (a ++ b ++ c).data := by
  obtain ⟨s, t, hst⟩ := h
  refine ⟨a.data ++ s, t ++ c.data, ?_⟩
  rw [strData_append, strData_append, ← hst]
  simp [List.append_assoc]

/-! ## Claim C2 (corrected) -/

/-- C2 counterexample: a matched request whose data requirement fails is not
answered with a 500 error document by this handler — it delegates the error
to the next handler (`next(error)`), so the emitted response is not a
server-error document with an embedded empty state. -/
theorem c2_counterexample_fetch_failure_delegates :
    ssrHandle devEnv helmetEmpty (Except.error sampleErr) (fun _ => "")
        MatchOutcome.matched = (Response.nextError sampleErr, [Effect.fetch]) ∧
      isServerError (ssrHandle devEnv helmetEmpty (Except.error sampleErr) (fun _ => "")
        MatchOutcome.matched).1 = false :=
  ⟨rfl, rfl⟩

/-- C2 (amended): a failing data requirement makes the middleware delegate
the error to the next handler, emitting no document itself; the
500-with-empty-state document is produced exactly when route resolution
itself errors, and that document embeds the empty object `\x7b\x7d` as the
state snapshot. -/
theorem c2_fetch_failure_next_route_error_500 (env : Env) (hm : HelmetState)
    (e err : JsError) (fetchResult : Except JsError Json) (render : Json → String) :
    ssrHandle env hm (Except.error e) render MatchOutcome.matched =
        (Response.nextError e, [Effect.fetch]) ∧
      ssrHandle env hm fetchResult render (MatchOutcome.fail err) =
        (Response.error500 (renderError env hm err), []) ∧
      renderError env hm err =
        pageBeforeState env hm ("Server Error" ++ errTrace env err) ++ "\x7b\x7d" ++
          pageAfterState env := by
  refine ⟨rfl, rfl, ?_⟩
  have h := renderFullPage_decomp env hm ("Server Error" ++ errTrace env err) (Json.obj [])
  rw [show stringify (Json.obj []) = "\x7b\x7d" from rfl] at h
  exact h

/-! ## Claim C3 (corrected) -/

/-- C3 counterexample: the snapshot `Json.str "</script>"` serializes to a
string containing `</script>`, and that text occurs verbatim inside the
inline script element's content, prematurely terminating the script tag —
the embedding is not escaped against this. -/
theorem c3_counterexample_script_close_in_content :
    scriptCloseTag.data <:+: (stringify (Json.str "</script>")).data ∧
      scriptCloseTag.data <:+:
        (inlineScriptContent devEnv (Json.str "</script>")).data := by
  exact ⟨by decide, by decide⟩

/-- C3 (amended): the assembler embeds `JSON.stringify(initialState)`
verbatim inside the script element (no `</script>`-escaping), so whenever
the serialized snapshot contains `</script>`, the inline script content of
the produced document contains it too and the script tag is terminated
prematurely. -/
theorem c3_embedding_unescaped (env : Env) (hm : HelmetState) (html : String) (s : Json)
    (h : scriptCloseTag.data <:+: (stringify s).data) :
    renderFullPage env hm html s =
      (docHeadPart env hm ++ html ++ "</div>\n        ") ++ scriptOpenTag ++
        inlineScriptContent env s ++ scriptCloseTag ++ docTailPart env ∧
      scriptCloseTag.data <:+: (inlineScriptContent env s).data := by
  constructor
  · unfold renderFullPage
    simp [strAppend_assoc]
  · unfold inlineScriptContent
    exact infixOf_append_middle scriptCloseTag.data stateMarkerText (stringify s)
      (afterStateInScript env) h

theorem c3_embedding_unescaped_witness :
    scriptCloseTag.data <:+: (stringify (Json.str "x</script>y")).data ∧
      scriptCloseTag.data <:+:
        (inlineScriptContent devEnv (Json.str "x</script>y")).data :=
  ⟨by decide,
    (c3_embedding_unescaped devEnv helmetEmpty "" (Json.str "x</script>y") (by decide)).2⟩

/-! ## Claim C4 (confirmed) -/

/-- C4: on a matched request whose data requirements all succeed, the
middleware emits a 200 response whose document embeds the serialized final
store state verbatim under the global-state binding, and parsing that
serialized snapshot yields exactly the in-memory final state (the
serialize-then-parse round trip is the identity). -/
theorem c4_embedded_state_roundtrip (env : Env) (hm : HelmetState)
    (render : Json → String) (finalState : Json) :
    ssrHandle env hm (Except.ok finalState) render MatchOutcome.matched =
        (Response.ok200 (renderFullPage env hm (render finalState) finalState),
          [Effect.fetch, Effect.render]) ∧
      renderFullPage env hm (render finalState) finalState =
        pageBeforeState env hm (render finalState) ++ stringify finalState ++
          pageAfterState env ∧
      jsonParse (stringify finalState) = some finalState :=
  ⟨rfl, renderFullPage_decomp env hm (render finalState) finalState,
    jsonParse_stringify finalState⟩

/-! ## Claim C7 (corrected) -/

/-- C7 counterexample: two calls of the assembler with identical markup,
state snapshot, environment flag and manifests, but different Helmet
head-fragment globals, produce different documents — the assembler is not a
function of the four listed inputs alone. -/
theorem c7_counterexample_helmet_dependence :
    renderFullPage devEnv helmetA "" Json.null ≠
      renderFullPage devEnv helmetEmpty "" Json.null := by
  decide

/-- C7 (amended): the assembler is a deterministic, effect-free function of
the listed inputs together with the Helmet head-fragment global it reads via
`Helmet.rewind()`; the rewind resets that global to empty, and the output
genuinely depends on it, so the four listed inputs alone do not determine
the document. -/
theorem c7_assembler_deterministic_given_helmet :
    (∀ (env : Env) (hm : HelmetState) (html : String) (s : Json),
        renderFullPageRw env hm html s = (renderFullPage env hm html s, helmetEmpty)) ∧
      ∃ (env : Env) (hm1 hm2 : HelmetState) (html : String) (s : Json),
        renderFullPage env hm1 html s ≠ renderFullPage env hm2 html s :=
  ⟨fun _ _ _ _ => rfl,
    ⟨devEnv, helmetA, helmetEmpty, "", Json.null, by decide⟩⟩

/-! ## Claim C8 (confirmed) -/

/-- C8: a redirect match outcome is answered by a 302 redirect to exactly
the pathname concatenated with the query search, whatever the fetch result
and renderer would be, and neither `fetchComponentData` nor `renderToString`
is invoked (the effect trace is empty). -/
theorem c8_redirect_exact (env : Env) (hm : HelmetState)
    (fetchResult : Except JsError Json) (render : Json → String)
    (pathname search : String) :
    ssrHandle env hm fetchResult render (MatchOutcome.redirect pathname search) =
      (Response.redirect 302 (pathname ++ search), []) :=
  rfl
